import Mathlib

/-!
Shallow embedding of the windowing and position-tracking engine of the
`react-smartlist` virtual list (`src/VirtualList.tsx` and
`src/VirtualListItem.tsx`).

Pixel quantities are modelled as `Int`; item identifiers as `Nat`; the
`Map<TID, number>` height cache as an association list with JS `Map.set`
semantics (replace first matching key, else append).  JS loops are
translated into structural / fuel recursion; reads `arr[i]` that the
source only performs in bounds are modelled with `getD`-style totalization.
-/

namespace SmartList

/-- Item identifier (`TID = string | number` in the source). -/
abbrev TID := Nat

/-- An item of the `items` array; only its stable `id` matters to the core. -/
structure TData where
  id : TID
deriving DecidableEq, Repr

/-- The measured-height cache (`heightCache: Map<TID, number>`). -/
abbrev HeightCache := List (TID × Int)

/-- Lookup in the height cache (`heightCache.get(id)`). -/
def hcGet : HeightCache → TID → Option Int
  | [], _ => none
  | (k, v) :: rest, id => if k = id then some v else hcGet rest id

/-- JS `Map.set`: replace the binding of `id` if present, else append it. -/
def hcSet : HeightCache → TID → Int → HeightCache
  | [], id, h => [(id, h)]
  | (k, v) :: rest, id, h =>
    if k = id then (id, h) :: rest else (k, v) :: hcSet rest id h

/-- Source `getItemHeight`: `heightCache.get(item.id) ?? estimatedItemHeight`. -/
def getItemHeight (cache : HeightCache) (est : Int) (item : TData) : Int :=
  (hcGet cache item.id).getD est

/-- Height of the item at index `i` (`getHeight(i)` in the source rebuild,
`getItemHeight(items[i])` in the scan/patch loops).  Out-of-range indices,
which the source never reaches, default to the estimate. -/
def getHeightAt (items : List TData) (cache : HeightCache) (est : Int) (i : Nat) : Int :=
  match items[i]? with
  | some item => getItemHeight cache est item
  | none => est

/-- Component state (`TState`), without the reference-identity memo field. -/
structure TState where
  heightCache : HeightCache
  heightCacheVersion : Nat
  isInView : Bool
  nailPoints : List Int
  listHeight : Int
  firstIndex : Int
  lastIndex : Int
deriving DecidableEq, Repr

/-- One push loop of the source: starting at index `i` with the last nail
point `last`, perform `steps` iterations of
`nailPoints.push(nailPoints[i] + height(i))`.  At every iteration the read
index `i` is the position of the most recently appended entry, so the read
is the running accumulator `last`. -/
def extendNailPoints (getH : Nat → Int) : Nat → Nat → Int → List Int
  | _, 0, _ => []
  | i, steps + 1, last =>
    let np := last + getH i
    np :: extendNailPoints getH (i + 1) steps np

/-- The rebuild loop of `getDerivedStateFromProps`: `nailPoints = [0]`,
then for `i` from `0` to `arrLastIndex - 1` push `nailPoints[i] + getHeight(i)`. -/
def buildNailPoints (items : List TData) (cache : HeightCache) (est : Int) : List Int :=
  0 :: extendNailPoints (getHeightAt items cache est) 0 (items.length - 1) 0

/-- The patch loop of `handleMeasure`:
`nailPoints = state.nailPoints.slice(0, entryIndex + 1)`, then for `i` from
`entryIndex` to `items.length - 2` push `nailPoints[i] + getItemHeight(items[i])`. -/
def patchNailPoints (getH : Nat → Int) (n : Nat) (old : List Int) (entryIndex : Nat) : List Int :=
  let kept := old.take (entryIndex + 1)
  kept ++ extendNailPoints getH entryIndex (n - 1 - entryIndex) (kept.getD entryIndex 0)

/-- Window edges (`TWindowEdges`). -/
structure TWindowEdges where
  top : Int
  bottom : Int
  rawTop : Int
  rawBottom : Int
  listHeight : Int
  isInView : Bool
deriving DecidableEq, Repr

/-- Source `getWindowEdges`, with the DOM reads
(`document.documentElement.scrollTop`, `offsetTop`, `window.innerHeight`)
passed as parameters.  `bottom` is computed before `top`. -/
def getWindowEdges (scrollTop offsetTop overscanPadding innerHeight listHeight : Int) :
    TWindowEdges :=
  let rawTop := scrollTop - offsetTop
  let rawBottom := rawTop + innerHeight
  let bottom := max 0 (min listHeight (rawBottom + overscanPadding))
  let top := max 0 (min bottom (rawTop - overscanPadding))
  { isInView := decide (bottom ≠ top)
    top := top
    bottom := bottom
    rawTop := rawTop
    rawBottom := rawBottom
    listHeight := listHeight }

/-- The `items !== memoizedItemsArray` branch of `getDerivedStateFromProps`:
full rebuild of the position table, clamping of the retained indices into
`[0, items.length - 1]`(in JS arithmetic, so `-1` when `items` is empty),
and forcing `isInView := false` on an empty array. -/
def getDerivedStateFromProps (items : List TData) (est : Int) (s : TState) : TState :=
  let arrLastIndex := items.length - 1
  let nailPoints := buildNailPoints items s.heightCache est
  let nailPoint := nailPoints.getD arrLastIndex 0
  let height := if items.isEmpty then 0 else getHeightAt items s.heightCache est arrLastIndex
  let listHeight := nailPoint + height
  let clampIntoArrRange := fun (v : Int) => min (max 0 v) ((items.length : Int) - 1)
  { s with
    nailPoints := nailPoints
    listHeight := listHeight
    isInView := if items.isEmpty then false else s.isInView
    firstIndex := clampIntoArrRange s.firstIndex
    lastIndex := clampIntoArrRange s.lastIndex }

/-- Whether the item at index `i` has a cached (measured) height
(`heightCache.has(items[i].id)`). -/
def measuredAt (items : List TData) (cache : HeightCache) (i : Nat) : Bool :=
  match items[i]? with
  | some item => (hcGet cache item.id).isSome
  | none => false

/-- The `getPivot` loop: scan `i = firstIndex + 1 .. lastIndex` and return
the first index whose id is in the height cache.  `fuel` is the number of
remaining iterations. -/
def getPivotLoop (measured : Nat → Bool) : Nat → Nat → Option Nat
  | _, 0 => none
  | i, fuel + 1 => if measured i then some i else getPivotLoop measured (i + 1) fuel

/-- Source `getPivot`: first measured index in `[firstIndex + 1, lastIndex]`,
falling back to `firstIndex`. -/
def getPivot (items : List TData) (cache : HeightCache) (firstIndex lastIndex : Int) : Nat :=
  match getPivotLoop (measuredAt items cache) (firstIndex + 1).toNat
      (lastIndex - firstIndex).toNat with
  | some i => i
  | none => firstIndex.toNat

/-- The `isVisible` test of `getVisibleIndexes`:
`edges.top <= nailPoints[i] + height && nailPoints[i] <= edges.bottom`
(closed interval on both ends).  An out-of-range index is never visible. -/
def visAt (top bottom : Int) (items : List TData) (cache : HeightCache) (est : Int)
    (nailPoints : List Int) (i : Nat) : Bool :=
  match nailPoints[i]?, items[i]? with
  | some nP, some item =>
    decide (top ≤ nP + getItemHeight cache est item) && decide (nP ≤ bottom)
  | _, _ => false

/-- The index-bookkeeping step of `scanIndex` when index `i` is visible:
`firstIndex := min i firstIndex`, `lastIndex := max i lastIndex` (`none`
encodes the source's NaN sentinel for "nothing found yet"). -/
def scanUpdate (st : Option (Nat × Nat)) (i : Nat) : Option (Nat × Nat) :=
  match st with
  | none => some (i, i)
  | some (f, l) => some (min i f, max i l)

/-- The downward scan loop of `getVisibleIndexes`: `for i = pivot down to 0`,
breaking at the first non-visible index after at least one visible index. -/
def scanDown (vis : Nat → Bool) : Nat → Option (Nat × Nat) → Option (Nat × Nat)
  | 0, st => if vis 0 then scanUpdate st 0 else st
  | j + 1, st =>
    if vis (j + 1) then scanDown vis j (scanUpdate st (j + 1))
    else
      match st with
      | some fl => some fl
      | none => scanDown vis j none

/-- The upward scan loop of `getVisibleIndexes`: `for i = pivot + 1; i < n`,
with the same stopping rule; `fuel = n - i` bounds the remaining iterations. -/
def scanUpAux (vis : Nat → Bool) : Nat → Nat → Option (Nat × Nat) → Option (Nat × Nat)
  | 0, _, st => st
  | fuel + 1, i, st =>
    if vis i then scanUpAux vis fuel (i + 1) (scanUpdate st i)
    else
      match st with
      | some fl => some fl
      | none => scanUpAux vis fuel (i + 1) none

/-- Result of `getVisibleIndexes`: `indexes = none` models both the
not-in-view early return and the NaN/NaN "nothing visible" outcome. -/
structure TVisibleRange where
  isInView : Bool
  indexes : Option (Nat × Nat)
deriving DecidableEq, Repr

/-- Source `getVisibleIndexes` over a given pivot and window edges. -/
def getVisibleIndexes (items : List TData) (cache : HeightCache) (est : Int)
    (nailPoints : List Int) (pivot : Nat) (edges : TWindowEdges) : TVisibleRange :=
  if edges.isInView then
    { isInView := true
      indexes :=
        scanUpAux (visAt edges.top edges.bottom items cache est nailPoints)
          (items.length - (pivot + 1)) (pivot + 1)
          (scanDown (visAt edges.top edges.bottom items cache est nailPoints) pivot none) }
  else { isInView := false, indexes := none }

/-- The `pivotIndex` local of `handleMeasure`: `this.getPivot()` on the
pre-measurement state (old cache, old indices). -/
def measurePivotIndex (items : List TData) (s : TState) : Nat :=
  getPivot items s.heightCache s.firstIndex s.lastIndex

/-- The `nailPoints` local of `handleMeasure`: the patch loop run with the
already-updated cache. -/
def measureNailPoints (items : List TData) (est : Int) (s : TState)
    (id : TID) (entryIndex : Nat) (entryHeight : Int) : List Int :=
  patchNailPoints (getHeightAt items (hcSet s.heightCache id entryHeight) est) items.length
    s.nailPoints entryIndex

/-- The `listHeight` local of `handleMeasure`:
`nailPoints.at(-1) + getItemHeight(items.at(-1))` with the updated cache. -/
def measureListHeight (items : List TData) (est : Int) (s : TState)
    (id : TID) (entryIndex : Nat) (entryHeight : Int) : Int :=
  (measureNailPoints items est s id entryIndex entryHeight).getLastD 0
    + getHeightAt items (hcSet s.heightCache id entryHeight) est (items.length - 1)

/-- The compensation condition of `handleMeasure`:
`changeAbovePivot || listShrinks`, i.e.
`(entryIndex < pivotIndex || state.lastIndex <= pivotIndex) || listHeight < state.listHeight`. -/
def measureCompensates (items : List TData) (est : Int) (s : TState)
    (id : TID) (entryIndex : Nat) (entryHeight : Int) : Bool :=
  (decide (entryIndex < measurePivotIndex items s)
    || decide (s.lastIndex ≤ (measurePivotIndex items s : Int)))
  || decide (measureListHeight items est s id entryIndex entryHeight < s.listHeight)

/-- The compensation amount `prevPivotEdge - nextPivotEdge` of
`handleMeasure`, where each edge is `nailPoint[pivot] + pivotHeight` taken
before and after the cache update respectively. -/
def measureScrollDelta (items : List TData) (est : Int) (s : TState)
    (id : TID) (entryIndex : Nat) (entryHeight : Int) : Int :=
  (s.nailPoints.getD (measurePivotIndex items s) 0
    + getHeightAt items s.heightCache est (measurePivotIndex items s))
  - ((measureNailPoints items est s id entryIndex entryHeight).getD (measurePivotIndex items s) 0
    + getHeightAt items (hcSet s.heightCache id entryHeight) est (measurePivotIndex items s))

/-- Source `handleMeasure` as a pure state transition.  The DOM scroll
position is threaded explicitly: the result is the new state together with
the new `document.documentElement.scrollTop`.  The mutation order of the
source is preserved: the pivot and its previous height are read before the
cache update, the patch loop and the second `getPivot` (inside the
`getVisibleIndexes` call) read the updated cache, and the window edges are
computed from the compensated scroll position. -/
def handleMeasure (items : List TData) (est pad offsetTop innerHeight : Int)
    (s : TState) (scrollTop : Int) (id : TID) (entryIndex : Nat) (entryHeight : Int) :
    TState × Int :=
  if hcGet s.heightCache id = some entryHeight then (s, scrollTop)
  else
    let heightCache := hcSet s.heightCache id entryHeight
    let nailPoints := measureNailPoints items est s id entryIndex entryHeight
    let listHeight := measureListHeight items est s id entryIndex entryHeight
    let scrollTop' :=
      if measureCompensates items est s id entryIndex entryHeight then
        scrollTop - measureScrollDelta items est s id entryIndex entryHeight
      else scrollTop
    let edges := getWindowEdges scrollTop' offsetTop pad innerHeight listHeight
    let scanPivot := getPivot items heightCache s.firstIndex s.lastIndex
    let vr := getVisibleIndexes items heightCache est nailPoints scanPivot edges
    ({ heightCache := heightCache
       heightCacheVersion := s.heightCacheVersion + 1
       isInView := vr.isInView
       nailPoints := nailPoints
       listHeight := listHeight
       firstIndex := match vr.indexes with | some fl => (fl.1 : Int) | none => s.firstIndex
       lastIndex := match vr.indexes with | some fl => (fl.2 : Int) | none => s.lastIndex },
     scrollTop')

/-- The `handleResize` guard of `VirtualListItem` composed with the
`onMeasure` callback: a zero measured height is ignored, everything else is
forwarded to `handleMeasure`. -/
def handleResize (items : List TData) (est pad offsetTop innerHeight : Int)
    (s : TState) (scrollTop : Int) (id : TID) (entryIndex : Nat) (height : Int) :
    TState × Int :=
  if height = 0 then (s, scrollTop)
  else handleMeasure items est pad offsetTop innerHeight s scrollTop id entryIndex height

/-- A sample state used by concrete witnesses. -/
def sampleState : TState :=
  { heightCache := []
    heightCacheVersion := 0
    isInView := true
    nailPoints := [0, 50, 100]
    listHeight := 150
    firstIndex := 0
    lastIndex := 2 }

/-- A sample item list used by concrete witnesses. -/
def sampleItems : List TData := [⟨0⟩, ⟨1⟩, ⟨2⟩]

/-- A sample state whose cache already holds a measurement for id `0`. -/
def measuredState : TState :=
  { heightCache := [(0, 25)]
    heightCacheVersion := 1
    isInView := true
    nailPoints := [0, 25, 75]
    listHeight := 125
    firstIndex := 0
    lastIndex := 2 }

/-- The Position Table invariant of the spec: the nail points are the
prefix sums of the item heights (`nailPoints[0] = 0`,
`nailPoints[i+1] = nailPoints[i] + heightOf(item i)`), the sequence is
non-decreasing, and `listHeight = nailPoints[last] + heightOf(last)`. -/
def PosInv (items : List TData) (cache : HeightCache) (est : Int)
    (nailPoints : List Int) (listHeight : Int) : Prop :=
  nailPoints.length = items.length ∧
  nailPoints[0]? = some 0 ∧
  (∀ i, i < items.length - 1 →
    nailPoints[i + 1]? = some (nailPoints.getD i 0 + getHeightAt items cache est i)) ∧
  (∀ i, i < items.length → ∀ j, j ≤ i → nailPoints.getD j 0 ≤ nailPoints.getD i 0) ∧
  listHeight = nailPoints.getD (items.length - 1) 0
    + getHeightAt items cache est (items.length - 1)

instance instDecidablePosInv (items : List TData) (cache : HeightCache) (est : Int)
    (nailPoints : List Int) (listHeight : Int) :
    Decidable (PosInv items cache est nailPoints listHeight) := by
  unfold PosInv
  exact inferInstance

theorem hcGet_hcSet_self : ∀ (c : HeightCache) (id : TID) (h : Int),
    hcGet (hcSet c id h) id = some h
  | [], id, h => by simp [hcGet, hcSet]
  | (k, v) :: rest, id, h => by
    by_cases hk : k = id
    · simp [hcSet, hk, hcGet]
    · simp [hcSet, hk, hcGet, hcGet_hcSet_self rest id h]

theorem hcGet_hcSet_ne : ∀ (c : HeightCache) (id x : TID) (h : Int), x ≠ id →
    hcGet (hcSet c id h) x = hcGet c x
  | [], id, x, h, hx => by
    have hx2 : ¬ id = x := fun hh => hx hh.symm
    simp [hcGet, hcSet, hx2]
  | (k, v) :: rest, id, x, h, hx => by
    have hx2 : ¬ id = x := fun hh => hx hh.symm
    by_cases hk : k = id
    · subst hk
      simp [hcSet, hcGet, hx2]
    · by_cases hkx : k = x
      · subst hkx
        simp [hcSet, hk, hcGet]
      · simp [hcSet, hk, hcGet, hkx, hcGet_hcSet_ne rest id x h hx]

/-- Unfolding of `handleMeasure` when the idempotence guard fires. -/
theorem handleMeasure_cached (items : List TData) (est pad offsetTop innerHeight : Int)
    (s : TState) (scrollTop : Int) (id : TID) (entryIndex : Nat) (entryHeight : Int)
    (hg : hcGet s.heightCache id = some entryHeight) :
    handleMeasure items est pad offsetTop innerHeight s scrollTop id entryIndex entryHeight
      = (s, scrollTop) := by
  simp [handleMeasure, hg]

/-- The cache written by a non-guarded `handleMeasure` call. -/
theorem handleMeasure_heightCache (items : List TData) (est pad offsetTop innerHeight : Int)
    (s : TState) (scrollTop : Int) (id : TID) (entryIndex : Nat) (entryHeight : Int)
    (hg : ¬ hcGet s.heightCache id = some entryHeight) :
    (handleMeasure items est pad offsetTop innerHeight s scrollTop id entryIndex
        entryHeight).1.heightCache
      = hcSet s.heightCache id entryHeight := by
  simp [handleMeasure, hg]

/-- C9 counterexample part: rebuilding from the empty item sequence yields
`nailPoints = [0]` (the sentinel initial entry survives), not the empty
sequence claimed by the spec. -/
theorem c9_empty_rebuild_counterexample :
    (getDerivedStateFromProps [] 50 sampleState).nailPoints ≠ ([] : List Int) := by
  decide

/-- C9 (amended): rebuilding from an empty item sequence yields
`listHeight = 0` and `nailPoints = [0]` (a single sentinel `0` entry, not
`[]`), and `isInView` is forced to `false`, so the render slice performs no
indexing into the table. -/
theorem c9_empty_rebuild_amended (est : Int) (s : TState) :
    (getDerivedStateFromProps [] est s).listHeight = 0 ∧
    (getDerivedStateFromProps [] est s).nailPoints = [0] ∧
    (getDerivedStateFromProps [] est s).isInView = false := by
  refine ⟨rfl, rfl, rfl⟩

/-- C4: the window edge calculator computes
`bottom = clamp(rawBottom + overscanPadding, 0, listHeight)` first and
`top = clamp(rawTop - overscanPadding, 0, bottom)` from that clamped
`bottom`; hence `0 ≤ top ≤ bottom ≤ listHeight` whenever
`overscanPadding ≥ 0` and `listHeight ≥ 0`, `isInView` means exactly
`bottom ≠ top`, and `isInView` is `false` whenever the overscan-extended
viewport lies entirely above (`rawBottom + pad ≤ 0`) or entirely below
(`rawTop - pad ≥ listHeight`) the content. -/
theorem c4_window_edges (scrollTop offsetTop pad innerHeight listHeight : Int)
    (hpad : 0 ≤ pad) (hlh : 0 ≤ listHeight) :
    (getWindowEdges scrollTop offsetTop pad innerHeight listHeight).bottom
      = max 0 (min listHeight
          ((getWindowEdges scrollTop offsetTop pad innerHeight listHeight).rawBottom + pad)) ∧
    (getWindowEdges scrollTop offsetTop pad innerHeight listHeight).top
      = max 0 (min (getWindowEdges scrollTop offsetTop pad innerHeight listHeight).bottom
          ((getWindowEdges scrollTop offsetTop pad innerHeight listHeight).rawTop - pad)) ∧
    0 ≤ (getWindowEdges scrollTop offsetTop pad innerHeight listHeight).top ∧
    (getWindowEdges scrollTop offsetTop pad innerHeight listHeight).top
      ≤ (getWindowEdges scrollTop offsetTop pad innerHeight listHeight).bottom ∧
    (getWindowEdges scrollTop offsetTop pad innerHeight listHeight).bottom ≤ listHeight ∧
    ((getWindowEdges scrollTop offsetTop pad innerHeight listHeight).isInView = true ↔
      (getWindowEdges scrollTop offsetTop pad innerHeight listHeight).bottom
        ≠ (getWindowEdges scrollTop offsetTop pad innerHeight listHeight).top) ∧
    ((getWindowEdges scrollTop offsetTop pad innerHeight listHeight).rawBottom + pad ≤ 0 →
      (getWindowEdges scrollTop offsetTop pad innerHeight listHeight).isInView = false) ∧
    (listHeight ≤ (getWindowEdges scrollTop offsetTop pad innerHeight listHeight).rawTop - pad →
      (getWindowEdges scrollTop offsetTop pad innerHeight listHeight).isInView = false) := by
  have hrt : (getWindowEdges scrollTop offsetTop pad innerHeight listHeight).rawTop
      = scrollTop - offsetTop := rfl
  have hrb : (getWindowEdges scrollTop offsetTop pad innerHeight listHeight).rawBottom
      = scrollTop - offsetTop + innerHeight := rfl
  have hb : (getWindowEdges scrollTop offsetTop pad innerHeight listHeight).bottom
      = max 0 (min listHeight (scrollTop - offsetTop + innerHeight + pad)) := rfl
  have ht : (getWindowEdges scrollTop offsetTop pad innerHeight listHeight).top
      = max 0 (min (max 0 (min listHeight (scrollTop - offsetTop + innerHeight + pad)))
          (scrollTop - offsetTop - pad)) := rfl
  have hv : (getWindowEdges scrollTop offsetTop pad innerHeight listHeight).isInView
      = decide ((getWindowEdges scrollTop offsetTop pad innerHeight listHeight).bottom
          ≠ (getWindowEdges scrollTop offsetTop pad innerHeight listHeight).top) := rfl
  refine ⟨by rw [hb, hrb], by rw [ht, hb, hrt], ?_, ?_, ?_, ?_, ?_, ?_⟩
  · rw [ht]; omega
  · rw [ht, hb]; omega
  · rw [hb]; omega
  · rw [hv]; simp [decide_eq_true_iff]
  · intro hab
    rw [hrb] at hab
    rw [hv, decide_eq_false_iff_not, not_not, hb, ht]
    omega
  · intro hbe
    rw [hrt] at hbe
    rw [hv, decide_eq_false_iff_not, not_not, hb, ht]
    omega

/-- C4 witness at a concrete input. -/
theorem c4_window_edges_witness :
    (getWindowEdges 100 10 20 768 2500).bottom
      = max 0 (min 2500 ((getWindowEdges 100 10 20 768 2500).rawBottom + 20)) ∧
    (getWindowEdges 100 10 20 768 2500).top
      = max 0 (min (getWindowEdges 100 10 20 768 2500).bottom
          ((getWindowEdges 100 10 20 768 2500).rawTop - 20)) ∧
    0 ≤ (getWindowEdges 100 10 20 768 2500).top ∧
    (getWindowEdges 100 10 20 768 2500).top ≤ (getWindowEdges 100 10 20 768 2500).bottom ∧
    (getWindowEdges 100 10 20 768 2500).bottom ≤ 2500 ∧
    ((getWindowEdges 100 10 20 768 2500).isInView = true ↔
      (getWindowEdges 100 10 20 768 2500).bottom ≠ (getWindowEdges 100 10 20 768 2500).top) ∧
    ((getWindowEdges 100 10 20 768 2500).rawBottom + 20 ≤ 0 →
      (getWindowEdges 100 10 20 768 2500).isInView = false) ∧
    (2500 ≤ (getWindowEdges 100 10 20 768 2500).rawTop - 20 →
      (getWindowEdges 100 10 20 768 2500).isInView = false) :=
  c4_window_edges 100 10 20 768 2500 (by decide) (by decide)

/-- C7: if the height cache already maps `id` to `entryHeight`, the
measurement integrator performs no state transition (state and scroll
position are returned unchanged); consequently applying the same
`(id, height)` report twice produces no second transition: the second call
returns exactly the first call's result. -/
theorem c7_measure_idempotent (items : List TData) (est pad offsetTop innerHeight : Int)
    (s : TState) (scrollTop : Int) (id : TID) (entryIndex : Nat) (entryHeight : Int) :
    (hcGet s.heightCache id = some entryHeight →
      handleMeasure items est pad offsetTop innerHeight s scrollTop id entryIndex entryHeight
        = (s, scrollTop)) ∧
    handleMeasure items est pad offsetTop innerHeight
        (handleMeasure items est pad offsetTop innerHeight s scrollTop id entryIndex
          entryHeight).1
        (handleMeasure items est pad offsetTop innerHeight s scrollTop id entryIndex
          entryHeight).2
        id entryIndex entryHeight
      = handleMeasure items est pad offsetTop innerHeight s scrollTop id entryIndex
          entryHeight := by
  constructor
  · intro hg
    exact handleMeasure_cached items est pad offsetTop innerHeight s scrollTop id entryIndex
      entryHeight hg
  · by_cases hg : hcGet s.heightCache id = some entryHeight
    · rw [handleMeasure_cached items est pad offsetTop innerHeight s scrollTop id entryIndex
        entryHeight hg]
      exact handleMeasure_cached items est pad offsetTop innerHeight s scrollTop id entryIndex
        entryHeight hg
    · have hw : hcGet ((handleMeasure items est pad offsetTop innerHeight s scrollTop id
          entryIndex entryHeight).1.heightCache) id = some entryHeight := by
        rw [handleMeasure_heightCache items est pad offsetTop innerHeight s scrollTop id
          entryIndex entryHeight hg]
        exact hcGet_hcSet_self s.heightCache id entryHeight
      rw [handleMeasure_cached items est pad offsetTop innerHeight _ _ id entryIndex
        entryHeight hw]

/-- C7 witness at a concrete cached measurement. -/
theorem c7_measure_idempotent_witness :
    handleMeasure sampleItems 50 20 0 768 measuredState 0 0 0 25 = (measuredState, 0) ∧
    handleMeasure sampleItems 50 20 0 768
        (handleMeasure sampleItems 50 20 0 768 measuredState 0 0 0 25).1
        (handleMeasure sampleItems 50 20 0 768 measuredState 0 0 0 25).2 0 0 25
      = handleMeasure sampleItems 50 20 0 768 measuredState 0 0 0 25 :=
  ⟨(c7_measure_idempotent sampleItems 50 20 0 768 measuredState 0 0 0 25).1 (by decide),
   (c7_measure_idempotent sampleItems 50 20 0 768 measuredState 0 0 0 25).2⟩

/-- C8 counterexample part: a report with the negative height `-5` is NOT
ignored — it changes the height cache — because the guard in
`VirtualListItem.handleResize` only filters `height === 0`, not all
non-positive heights. -/
theorem c8_negative_height_counterexample :
    (handleResize sampleItems 50 20 0 768 sampleState 0 1 1 (-5)).1.heightCache
      ≠ sampleState.heightCache := by
  decide

/-- C8 (amended): a measurement report whose height is exactly zero is
ignored with no state change; negative heights are not guarded (they cannot
be produced by the resize observer, but the code would integrate them). -/
theorem c8_zero_height_amended (items : List TData) (est pad offsetTop innerHeight : Int)
    (s : TState) (scrollTop : Int) (id : TID) (entryIndex : Nat) :
    handleResize items est pad offsetTop innerHeight s scrollTop id entryIndex 0
      = (s, scrollTop) := by
  simp [handleResize]

/-- C5: for a measurement applied at `entryIndex`, the integrator keeps the
whole prefix `nailPoints[0 .. entryIndex]` unchanged: every entry at an
index `i ≤ entryIndex` of the new table equals the old one (only the suffix
`entryIndex + 1 ..` and `listHeight` are recomputed). -/
theorem c5_patch_preserves_prefix (items : List TData) (est pad offsetTop innerHeight : Int)
    (s : TState) (scrollTop : Int) (id : TID) (entryIndex : Nat) (entryHeight : Int)
    (hk : entryIndex < s.nailPoints.length) :
    ∀ i, i ≤ entryIndex →
      (handleMeasure items est pad offsetTop innerHeight s scrollTop id entryIndex
          entryHeight).1.nailPoints[i]?
        = s.nailPoints[i]? := by
  intro i hi
  by_cases hg : hcGet s.heightCache id = some entryHeight
  · rw [handleMeasure_cached items est pad offsetTop innerHeight s scrollTop id entryIndex
      entryHeight hg]
  · have hnp : (handleMeasure items est pad offsetTop innerHeight s scrollTop id entryIndex
        entryHeight).1.nailPoints
        = measureNailPoints items est s id entryIndex entryHeight := by
      simp only [handleMeasure, if_neg hg]
    rw [hnp]
    simp only [measureNailPoints, patchNailPoints]
    have hlen : (s.nailPoints.take (entryIndex + 1)).length = entryIndex + 1 := by
      rw [List.length_take]
      omega
    rw [List.getElem?_append, if_pos (by omega : i < (s.nailPoints.take (entryIndex + 1)).length)]
    rw [List.getElem?_take, if_pos (by omega : i < entryIndex + 1)]

/-- C5 witness at a concrete measurement. -/
theorem c5_patch_preserves_prefix_witness :
    (handleMeasure sampleItems 50 20 0 768 sampleState 0 1 1 80).1.nailPoints[1]?
      = sampleState.nailPoints[1]? :=
  c5_patch_preserves_prefix sampleItems 50 20 0 768 sampleState 0 1 1 80 (by decide) 1
    (by decide)

/-- C2: for a measurement that actually changes a cached height, the scroll
position is compensated exactly when the change lies above the pivot
(`entryIndex < pivotIndex`), or the previous `lastIndex` is at or before
the pivot, or the new `listHeight` is smaller than the previous one; when
applied, the new scroll position is the old one minus
`(prevNailPoint + prevPivotHeight) - (newNailPoint + newPivotHeight)`,
which keeps the pivot item's bottom edge fixed relative to the scroll
position; and the resulting height cache, nail points and list height are
the patched values for every scroll position (the compensation never
modifies them). -/
theorem c2_scroll_compensation (items : List TData) (est pad offsetTop innerHeight : Int)
    (s : TState) (scrollTop : Int) (id : TID) (entryIndex : Nat) (entryHeight : Int)
    (hg : ¬ hcGet s.heightCache id = some entryHeight) :
    ((handleMeasure items est pad offsetTop innerHeight s scrollTop id entryIndex entryHeight).2
      = if entryIndex < measurePivotIndex items s
           ∨ s.lastIndex ≤ (measurePivotIndex items s : Int)
           ∨ measureListHeight items est s id entryIndex entryHeight < s.listHeight
        then scrollTop - measureScrollDelta items est s id entryIndex entryHeight
        else scrollTop) ∧
    ((entryIndex < measurePivotIndex items s ∨ s.lastIndex ≤ (measurePivotIndex items s : Int)
        ∨ measureListHeight items est s id entryIndex entryHeight < s.listHeight) →
      ((measureNailPoints items est s id entryIndex entryHeight).getD (measurePivotIndex items s) 0
          + getHeightAt items (hcSet s.heightCache id entryHeight) est (measurePivotIndex items s))
        - (handleMeasure items est pad offsetTop innerHeight s scrollTop id entryIndex
            entryHeight).2
      = (s.nailPoints.getD (measurePivotIndex items s) 0
          + getHeightAt items s.heightCache est (measurePivotIndex items s)) - scrollTop) ∧
    (∀ st2 : Int,
      (handleMeasure items est pad offsetTop innerHeight s st2 id entryIndex
          entryHeight).1.heightCache = hcSet s.heightCache id entryHeight ∧
      (handleMeasure items est pad offsetTop innerHeight s st2 id entryIndex
          entryHeight).1.nailPoints = measureNailPoints items est s id entryIndex entryHeight ∧
      (handleMeasure items est pad offsetTop innerHeight s st2 id entryIndex
          entryHeight).1.listHeight = measureListHeight items est s id entryIndex entryHeight) := by
  have hiff : (measureCompensates items est s id entryIndex entryHeight = true)
      ↔ (entryIndex < measurePivotIndex items s
          ∨ s.lastIndex ≤ (measurePivotIndex items s : Int)
          ∨ measureListHeight items est s id entryIndex entryHeight < s.listHeight) := by
    simp [measureCompensates, or_assoc]
  have h2 : ∀ st2 : Int,
      (handleMeasure items est pad offsetTop innerHeight s st2 id entryIndex entryHeight).2
        = if measureCompensates items est s id entryIndex entryHeight = true
          then st2 - measureScrollDelta items est s id entryIndex entryHeight else st2 := by
    intro st2
    simp only [handleMeasure, if_neg hg]
  refine ⟨?_, ?_, ?_⟩
  · rw [h2 scrollTop]
    exact if_congr hiff rfl rfl
  · intro hc
    rw [h2 scrollTop, if_pos (hiff.mpr hc)]
    simp only [measureScrollDelta]
    ring
  · intro st2
    refine ⟨?_, ?_, ?_⟩ <;> simp only [handleMeasure, if_neg hg]

/-- C2 witness at a concrete above-pivot shrinking measurement. -/
theorem c2_scroll_compensation_witness :
    ((handleMeasure sampleItems 50 20 0 768 sampleState 100 0 0 10).2
      = if (0 : Nat) < measurePivotIndex sampleItems sampleState
           ∨ sampleState.lastIndex ≤ (measurePivotIndex sampleItems sampleState : Int)
           ∨ measureListHeight sampleItems 50 sampleState 0 0 10 < sampleState.listHeight
        then 100 - measureScrollDelta sampleItems 50 sampleState 0 0 10
        else 100) ∧
    (((0 : Nat) < measurePivotIndex sampleItems sampleState
        ∨ sampleState.lastIndex ≤ (measurePivotIndex sampleItems sampleState : Int)
        ∨ measureListHeight sampleItems 50 sampleState 0 0 10 < sampleState.listHeight) →
      ((measureNailPoints sampleItems 50 sampleState 0 0 10).getD
            (measurePivotIndex sampleItems sampleState) 0
          + getHeightAt sampleItems (hcSet sampleState.heightCache 0 10) 50
            (measurePivotIndex sampleItems sampleState))
        - (handleMeasure sampleItems 50 20 0 768 sampleState 100 0 0 10).2
      = (sampleState.nailPoints.getD (measurePivotIndex sampleItems sampleState) 0
          + getHeightAt sampleItems sampleState.heightCache 50
            (measurePivotIndex sampleItems sampleState)) - 100) ∧
    (∀ st2 : Int,
      (handleMeasure sampleItems 50 20 0 768 sampleState st2 0 0 10).1.heightCache
        = hcSet sampleState.heightCache 0 10 ∧
      (handleMeasure sampleItems 50 20 0 768 sampleState st2 0 0 10).1.nailPoints
        = measureNailPoints sampleItems 50 sampleState 0 0 10 ∧
      (handleMeasure sampleItems 50 20 0 768 sampleState st2 0 0 10).1.listHeight
        = measureListHeight sampleItems 50 sampleState 0 0 10) :=
  c2_scroll_compensation sampleItems 50 20 0 768 sampleState 100 0 0 10 (by decide)

theorem extendNailPoints_length (getH : Nat → Int) :
    ∀ (steps i : Nat) (last : Int), (extendNailPoints getH i steps last).length = steps
  | 0, _, _ => rfl
  | steps + 1, i, last => by
    simp only [extendNailPoints, List.length_cons]
    rw [extendNailPoints_length getH steps (i + 1) (last + getH i)]

theorem extendNailPoints_cons_step (getH : Nat → Int) :
    ∀ (steps i : Nat) (last : Int) (j : Nat), j < steps →
      (last :: extendNailPoints getH i steps last)[j + 1]?
        = some ((last :: extendNailPoints getH i steps last).getD j 0 + getH (i + j))
  | 0, _, _, _, hj => absurd hj (Nat.not_lt_zero _)
  | steps + 1, i, last, 0, _ => by
    simp [extendNailPoints, List.getD_cons_zero]
  | steps + 1, i, last, j + 1, hj => by
    have ih := extendNailPoints_cons_step getH steps (i + 1) (last + getH i) j
      (Nat.lt_of_succ_lt_succ hj)
    simp only [extendNailPoints]
    rw [List.getElem?_cons_succ, List.getD_cons_succ]
    rw [show i + (j + 1) = (i + 1) + j from by omega]
    exact ih

theorem getElem?_eq_some_getD (L : List Int) (i : Nat) (h : i < L.length) :
    L[i]? = some (L.getD i 0) := by
  rw [List.getD_eq_getElem?_getD, List.getElem?_eq_getElem h]
  rfl

/-- Monotonicity of any list satisfying the prefix-sum step property with
non-negative heights. -/
theorem nailPoints_mono_of_steps (L : List Int) (h : Nat → Int)
    (hstep : ∀ i, i + 1 < L.length → L[i + 1]? = some (L.getD i 0 + h i))
    (hnn : ∀ i, i + 1 < L.length → 0 ≤ h i) :
    ∀ j, j < L.length → ∀ i, i ≤ j → L.getD i 0 ≤ L.getD j 0 := by
  intro j
  induction j with
  | zero =>
    intro _ i hi
    have : i = 0 := Nat.le_zero.mp hi
    subst this
    exact le_refl _
  | succ m ih =>
    intro hj i hi
    rcases Nat.lt_or_ge i (m + 1) with hlt | hge
    · have h1 : L.getD i 0 ≤ L.getD m 0 := ih (by omega) i (by omega)
      have h2 : L.getD (m + 1) 0 = L.getD m 0 + h m := by
        rw [List.getD_eq_getElem?_getD, hstep m hj]
        rfl
      have h3 : 0 ≤ h m := hnn m hj
      omega
    · have : i = m + 1 := by omega
      subst this
      exact le_refl _

theorem buildNailPoints_length (items : List TData) (cache : HeightCache) (est : Int)
    (h : 0 < items.length) :
    (buildNailPoints items cache est).length = items.length := by
  simp only [buildNailPoints, List.length_cons, extendNailPoints_length]
  omega

theorem buildNailPoints_step (items : List TData) (cache : HeightCache) (est : Int) :
    ∀ i, i < items.length - 1 →
      (buildNailPoints items cache est)[i + 1]?
        = some ((buildNailPoints items cache est).getD i 0 + getHeightAt items cache est i) := by
  intro i hi
  have h := extendNailPoints_cons_step (getHeightAt items cache est) (items.length - 1) 0 0 i hi
  simpa [buildNailPoints] using h

theorem patchNailPoints_length (getH : Nat → Int) (n : Nat) (old : List Int) (k : Nat)
    (hk : k < old.length) (hn : old.length = n) :
    (patchNailPoints getH n old k).length = n := by
  simp only [patchNailPoints, List.length_append, List.length_take, extendNailPoints_length]
  omega

theorem patchNailPoints_prefix (getH : Nat → Int) (n : Nat) (old : List Int) (k : Nat)
    (hk : k < old.length) :
    ∀ i, i ≤ k → (patchNailPoints getH n old k)[i]? = old[i]? := by
  intro i hi
  simp only [patchNailPoints]
  rw [List.getElem?_append,
    if_pos (show i < (old.take (k + 1)).length by rw [List.length_take]; omega)]
  rw [List.getElem?_take, if_pos (by omega : i < k + 1)]

theorem patchNailPoints_step (getH : Nat → Int) (n : Nat) (old : List Int) (k : Nat)
    (hk : k < old.length) (hn : old.length = n) :
    ∀ i, k ≤ i → i < n - 1 →
      (patchNailPoints getH n old k)[i + 1]?
        = some ((patchNailPoints getH n old k).getD i 0 + getH i) := by
  intro i hki hi
  have hkl : (old.take (k + 1)).length = k + 1 := by
    rw [List.length_take]
    omega
  have hA : ∀ j, k ≤ j →
      (patchNailPoints getH n old k)[j]?
        = ((old.take (k + 1)).getD k 0
            :: extendNailPoints getH k (n - 1 - k) ((old.take (k + 1)).getD k 0))[j - k]? := by
    intro j hj
    simp only [patchNailPoints]
    rcases Nat.eq_or_lt_of_le hj with hje | hjl
    · rw [← hje, Nat.sub_self]
      rw [List.getElem?_append, if_pos (by rw [hkl]; omega : k < (old.take (k + 1)).length)]
      rw [getElem?_eq_some_getD (old.take (k + 1)) k (by rw [hkl]; omega)]
      rw [List.getElem?_cons_zero]
    · rw [List.getElem?_append, if_neg (by rw [hkl]; omega : ¬ j < (old.take (k + 1)).length)]
      rw [hkl]
      rw [show j - k = (j - k - 1) + 1 from by omega, List.getElem?_cons_succ]
      rw [show j - (k + 1) = j - k - 1 from by omega]
  have hAi := hA i hki
  have hAi1 := hA (i + 1) (by omega)
  have hstep := extendNailPoints_cons_step getH (n - 1 - k) k ((old.take (k + 1)).getD k 0)
    (i - k) (by omega)
  rw [hAi1, show i + 1 - k = (i - k) + 1 from by omega, hstep,
    show k + (i - k) = i from by omega]
  have h3 : (patchNailPoints getH n old k).getD i 0
      = ((old.take (k + 1)).getD k 0
          :: extendNailPoints getH k (n - 1 - k) ((old.take (k + 1)).getD k 0)).getD (i - k) 0 := by
    rw [List.getD_eq_getElem?_getD, List.getD_eq_getElem?_getD, hAi]
  rw [h3]

/-- C1: after a full rebuild (`getDerivedStateFromProps` with a replaced
items array) and after a measurement integration (`handleMeasure`), the
Position Table satisfies the prefix-sum invariant with the corresponding
height cache: `nailPoints[0] = 0`, `nailPoints[i+1] = nailPoints[i] +
heightOf(item i)`, the sequence is non-decreasing, and `listHeight =
nailPoints[last] + heightOf(last)`, for every non-empty item list with
non-negative heights.  For the measurement part the pre-state table must
itself satisfy the invariant, the report must actually change the cache,
the index must be in bounds, and the measured id must not occur before
`entryIndex`. -/
theorem c1_position_invariant (items : List TData) (est : Int) (s : TState)
    (id : TID) (entryIndex : Nat) (entryHeight : Int)
    (pad offsetTop innerHeight scrollTop : Int)
    (hne : 0 < items.length)
    (hnn : ∀ i, i < items.length → 0 ≤ getHeightAt items s.heightCache est i)
    (hprior : PosInv items s.heightCache est s.nailPoints s.listHeight)
    (hg : ¬ hcGet s.heightCache id = some entryHeight)
    (hk : entryIndex < items.length)
    (hh : 0 ≤ entryHeight)
    (hid : ∀ i, i < entryIndex → ∀ it, items[i]? = some it → it.id ≠ id) :
    PosInv items s.heightCache est (getDerivedStateFromProps items est s).nailPoints
      (getDerivedStateFromProps items est s).listHeight ∧
    PosInv items (hcSet s.heightCache id entryHeight) est
      (handleMeasure items est pad offsetTop innerHeight s scrollTop id entryIndex
        entryHeight).1.nailPoints
      (handleMeasure items est pad offsetTop innerHeight s scrollTop id entryIndex
        entryHeight).1.listHeight := by
  constructor
  · -- rebuild part
    have hlen := buildNailPoints_length items s.heightCache est hne
    have hstep := buildNailPoints_step items s.heightCache est
    have hnp : (getDerivedStateFromProps items est s).nailPoints
        = buildNailPoints items s.heightCache est := rfl
    have hemp : items.isEmpty = false := by
      cases items with
      | nil => simp at hne
      | cons a t => rfl
    have hlh : (getDerivedStateFromProps items est s).listHeight
        = (buildNailPoints items s.heightCache est).getD (items.length - 1) 0
          + getHeightAt items s.heightCache est (items.length - 1) := by
      simp [getDerivedStateFromProps, hemp]
    refine ⟨by rw [hnp, hlen], by rw [hnp]; simp [buildNailPoints], ?_, ?_, by rw [hnp, hlh]⟩
    · intro i hi
      rw [hnp]
      exact hstep i hi
    · intro i hi j hj
      rw [hnp]
      exact nailPoints_mono_of_steps (buildNailPoints items s.heightCache est)
        (getHeightAt items s.heightCache est)
        (fun m hm => hstep m (by rw [hlen] at hm; omega))
        (fun m hm => hnn m (by rw [hlen] at hm; omega))
        i (by rw [hlen]; omega) j hj
  · -- measurement part
    have hnlen : s.nailPoints.length = items.length := hprior.1
    have hkk : entryIndex < s.nailPoints.length := by omega
    have hnp : (handleMeasure items est pad offsetTop innerHeight s scrollTop id entryIndex
        entryHeight).1.nailPoints = measureNailPoints items est s id entryIndex entryHeight := by
      simp only [handleMeasure, if_neg hg]
    have hlh : (handleMeasure items est pad offsetTop innerHeight s scrollTop id entryIndex
        entryHeight).1.listHeight = measureListHeight items est s id entryIndex entryHeight := by
      simp only [handleMeasure, if_neg hg]
    have hmn : measureNailPoints items est s id entryIndex entryHeight
        = patchNailPoints (getHeightAt items (hcSet s.heightCache id entryHeight) est)
            items.length s.nailPoints entryIndex := rfl
    have hpre : ∀ i, i < entryIndex →
        getHeightAt items (hcSet s.heightCache id entryHeight) est i
          = getHeightAt items s.heightCache est i := by
      intro i hik
      cases hitem : items[i]? with
      | none =>
        exfalso
        have := List.getElem?_eq_none_iff.mp hitem
        omega
      | some it =>
        simp only [getHeightAt, hitem, getItemHeight]
        rw [hcGet_hcSet_ne s.heightCache id it.id entryHeight (hid i hik it hitem)]
    have hnn2 : ∀ i, i < items.length →
        0 ≤ getHeightAt items (hcSet s.heightCache id entryHeight) est i := by
      intro i hir
      cases hitem : items[i]? with
      | none =>
        exfalso
        have := List.getElem?_eq_none_iff.mp hitem
        omega
      | some it =>
        by_cases hidq : it.id = id
        · simp only [getHeightAt, hitem, getItemHeight, hidq,
            hcGet_hcSet_self s.heightCache id entryHeight]
          simpa using hh
        · simp only [getHeightAt, hitem, getItemHeight]
          rw [hcGet_hcSet_ne s.heightCache id it.id entryHeight hidq]
          have h0 := hnn i hir
          simp only [getHeightAt, hitem, getItemHeight] at h0
          exact h0
    have hNlen : (measureNailPoints items est s id entryIndex entryHeight).length
        = items.length := by
      rw [hmn]
      exact patchNailPoints_length _ items.length s.nailPoints entryIndex hkk hnlen
    have hstep2 : ∀ i, i < items.length - 1 →
        (measureNailPoints items est s id entryIndex entryHeight)[i + 1]?
          = some ((measureNailPoints items est s id entryIndex entryHeight).getD i 0
              + getHeightAt items (hcSet s.heightCache id entryHeight) est i) := by
      intro i hi
      rcases Nat.lt_or_ge i entryIndex with hik | hik
      · rw [hmn, patchNailPoints_prefix _ items.length s.nailPoints entryIndex hkk (i + 1)
          (by omega)]
        have hold := hprior.2.2.1 i hi
        rw [hold]
        have hgd : (patchNailPoints (getHeightAt items (hcSet s.heightCache id entryHeight) est)
            items.length s.nailPoints entryIndex).getD i 0 = s.nailPoints.getD i 0 := by
          rw [List.getD_eq_getElem?_getD, List.getD_eq_getElem?_getD,
            patchNailPoints_prefix _ items.length s.nailPoints entryIndex hkk i (by omega)]
        rw [hgd, hpre i hik]
      · rw [hmn]
        exact patchNailPoints_step _ items.length s.nailPoints entryIndex hkk hnlen i hik hi
    refine ⟨?_, ?_, ?_, ?_, ?_⟩
    · rw [hnp]
      exact hNlen
    · rw [hnp, hmn, patchNailPoints_prefix _ items.length s.nailPoints entryIndex hkk 0
        (by omega)]
      exact hprior.2.1
    · intro i hi
      rw [hnp]
      exact hstep2 i hi
    · intro i hi j hj
      rw [hnp]
      exact nailPoints_mono_of_steps (measureNailPoints items est s id entryIndex entryHeight)
        (getHeightAt items (hcSet s.heightCache id entryHeight) est)
        (fun m hm => hstep2 m (by rw [hNlen] at hm; omega))
        (fun m hm => hnn2 m (by rw [hNlen] at hm; omega))
        i (by rw [hNlen]; omega) j hj
    · rw [hnp, hlh]
      have hlast : (measureNailPoints items est s id entryIndex entryHeight).getLastD 0
          = (measureNailPoints items est s id entryIndex entryHeight).getD
              (items.length - 1) 0 := by
        rw [List.getLastD_eq_getLast?, List.getLast?_eq_getElem?, ← List.getD_eq_getElem?_getD,
          hNlen]
      rw [measureListHeight, hlast]

/-- C1 witness at a concrete rebuild and measurement. -/
theorem c1_position_invariant_witness :
    PosInv sampleItems sampleState.heightCache 50
      (getDerivedStateFromProps sampleItems 50 sampleState).nailPoints
      (getDerivedStateFromProps sampleItems 50 sampleState).listHeight ∧
    PosInv sampleItems (hcSet sampleState.heightCache 1 80) 50
      (handleMeasure sampleItems 50 20 0 768 sampleState 0 1 1 80).1.nailPoints
      (handleMeasure sampleItems 50 20 0 768 sampleState 0 1 1 80).1.listHeight :=
  c1_position_invariant sampleItems 50 sampleState 1 1 80 20 0 768 0
    (by decide) (by decide) (by decide) (by decide) (by decide) (by decide) (by decide)

/-- C10: when the items array is replaced by a non-empty array, the derived
state clamps the retained `firstIndex` and `lastIndex` into
`[0, items.length - 1]`, the rebuilt table has one nail point per item, and
hence every index up to `lastIndex` is a valid index into both `items` and
`nailPoints` for the subsequent render slice and visibility scan. -/
theorem c10_clamped_indexes (items : List TData) (est : Int) (s : TState)
    (hne : 0 < items.length) :
    0 ≤ (getDerivedStateFromProps items est s).firstIndex ∧
    (getDerivedStateFromProps items est s).firstIndex ≤ (items.length : Int) - 1 ∧
    0 ≤ (getDerivedStateFromProps items est s).lastIndex ∧
    (getDerivedStateFromProps items est s).lastIndex ≤ (items.length : Int) - 1 ∧
    (getDerivedStateFromProps items est s).nailPoints.length = items.length ∧
    (∀ i : Nat, (i : Int) ≤ (getDerivedStateFromProps items est s).lastIndex →
      i < items.length ∧ i < (getDerivedStateFromProps items est s).nailPoints.length) := by
  have h1 : (1 : Int) ≤ (items.length : Int) := by exact_mod_cast hne
  have hf : (getDerivedStateFromProps items est s).firstIndex
      = min (max 0 s.firstIndex) ((items.length : Int) - 1) := rfl
  have hl : (getDerivedStateFromProps items est s).lastIndex
      = min (max 0 s.lastIndex) ((items.length : Int) - 1) := rfl
  have hlen := buildNailPoints_length items s.heightCache est hne
  have hnp : (getDerivedStateFromProps items est s).nailPoints
      = buildNailPoints items s.heightCache est := rfl
  refine ⟨by rw [hf]; omega, by rw [hf]; omega, by rw [hl]; omega, by rw [hl]; omega,
    by rw [hnp, hlen], ?_⟩
  intro i hi
  rw [hl] at hi
  have : (i : Int) ≤ (items.length : Int) - 1 := by omega
  have hi2 : i < items.length := by exact_mod_cast by omega
  exact ⟨hi2, by rw [hnp, hlen]; exact hi2⟩

/-- C10 witness at a concrete shrinking rebuild. -/
theorem c10_clamped_indexes_witness :
    0 ≤ (getDerivedStateFromProps sampleItems 50 measuredState).firstIndex ∧
    (getDerivedStateFromProps sampleItems 50 measuredState).firstIndex
      ≤ (sampleItems.length : Int) - 1 ∧
    0 ≤ (getDerivedStateFromProps sampleItems 50 measuredState).lastIndex ∧
    (getDerivedStateFromProps sampleItems 50 measuredState).lastIndex
      ≤ (sampleItems.length : Int) - 1 ∧
    (getDerivedStateFromProps sampleItems 50 measuredState).nailPoints.length
      = sampleItems.length ∧
    (∀ i : Nat, (i : Int) ≤ (getDerivedStateFromProps sampleItems 50 measuredState).lastIndex →
      i < sampleItems.length ∧
        i < (getDerivedStateFromProps sampleItems 50 measuredState).nailPoints.length) :=
  c10_clamped_indexes sampleItems 50 measuredState (by decide)

theorem getPivotLoop_some_spec (measured : Nat → Bool) :
    ∀ (fuel start p : Nat), getPivotLoop measured start fuel = some p →
      start ≤ p ∧ p < start + fuel ∧ measured p = true
  | 0, start, p, h => by simp [getPivotLoop] at h
  | fuel + 1, start, p, h => by
    by_cases hm : measured start
    · simp [getPivotLoop, hm] at h
      subst h
      exact ⟨le_refl _, by omega, hm⟩
    · simp only [getPivotLoop, if_neg hm] at h
      have := getPivotLoop_some_spec measured fuel (start + 1) p h
      exact ⟨by omega, by omega, this.2.2⟩

theorem getPivotLoop_none_spec (measured : Nat → Bool) :
    ∀ (fuel start : Nat), getPivotLoop measured start fuel = none →
      ∀ j, start ≤ j → j < start + fuel → measured j = false
  | 0, _, _, _, h1, h2 => by omega
  | fuel + 1, start, h, j, h1, h2 => by
    by_cases hm : measured start
    · simp [getPivotLoop, hm] at h
    · simp only [getPivotLoop, if_neg hm] at h
      rcases Nat.eq_or_lt_of_le h1 with he | hl
      · rw [← he]
        exact Bool.eq_false_iff.mpr hm
      · exact getPivotLoop_none_spec measured fuel (start + 1) h j hl (by omega)

/-- C6: for an in-bounds visible range `[firstIndex, lastIndex]`, the pivot
lies in that range; whenever some measured item exists strictly after
`firstIndex` in the range (which is where the search always starts — one
past `firstIndex`, covering in particular an update of the `firstIndex`
entry itself), the pivot is such a measured item; and when no measured item
exists there the pivot falls back to the previous `firstIndex`. -/
theorem c6_pivot_choice (items : List TData) (cache : HeightCache) (f l : Int)
    (h0 : 0 ≤ f) (hfl : f ≤ l) (hl : l < (items.length : Int)) :
    (f ≤ (getPivot items cache f l : Int) ∧ (getPivot items cache f l : Int) ≤ l) ∧
    ((∃ i : Nat, f < (i : Int) ∧ (i : Int) ≤ l ∧ measuredAt items cache i = true) →
      measuredAt items cache (getPivot items cache f l) = true
        ∧ f < (getPivot items cache f l : Int)) ∧
    ((∀ i : Nat, f < (i : Int) → (i : Int) ≤ l → measuredAt items cache i = false) →
      (getPivot items cache f l : Int) = f) := by
  have hstart : (f + 1).toNat = f.toNat + 1 := by omega
  have hfuel : (l - f).toNat = l.toNat - f.toNat := by omega
  have hFf : ((f.toNat : Int)) = f := Int.toNat_of_nonneg h0
  have hLl : ((l.toNat : Int)) = l := Int.toNat_of_nonneg (le_trans h0 hfl)
  have hFL : f.toNat ≤ l.toNat := by omega
  simp only [getPivot, hstart, hfuel]
  cases hloop : getPivotLoop (measuredAt items cache) (f.toNat + 1) (l.toNat - f.toNat) with
  | some p =>
    dsimp only
    have hp := getPivotLoop_some_spec (measuredAt items cache) (l.toNat - f.toNat)
      (f.toNat + 1) p hloop
    have hp1 : f < (p : Int) := by omega
    have hp2 : (p : Int) ≤ l := by omega
    refine ⟨⟨by omega, hp2⟩, fun _ => ⟨hp.2.2, hp1⟩, fun hnone => ?_⟩
    exfalso
    have := hnone p hp1 hp2
    rw [hp.2.2] at this
    simp at this
  | none =>
    dsimp only
    have hnone := getPivotLoop_none_spec (measuredAt items cache) (l.toNat - f.toNat)
      (f.toNat + 1) hloop
    refine ⟨⟨by omega, by omega⟩, fun hex => ?_, fun _ => hFf⟩
    exfalso
    obtain ⟨i, hi1, hi2, hi3⟩ := hex
    have := hnone i (by omega) (by omega)
    rw [hi3] at this
    simp at this

/-- C6 witness at a concrete range with a measured interior item. -/
theorem c6_pivot_choice_witness :
    ((0 : Int) ≤ (getPivot sampleItems [(1, 30)] 0 2 : Int)
      ∧ (getPivot sampleItems [(1, 30)] 0 2 : Int) ≤ 2) ∧
    ((∃ i : Nat, (0 : Int) < (i : Int) ∧ (i : Int) ≤ 2
        ∧ measuredAt sampleItems [(1, 30)] i = true) →
      measuredAt sampleItems [(1, 30)] (getPivot sampleItems [(1, 30)] 0 2) = true
        ∧ (0 : Int) < (getPivot sampleItems [(1, 30)] 0 2 : Int)) ∧
    ((∀ i : Nat, (0 : Int) < (i : Int) → (i : Int) ≤ 2 →
        measuredAt sampleItems [(1, 30)] i = false) →
      (getPivot sampleItems [(1, 30)] 0 2 : Int) = 0) :=
  c6_pivot_choice sampleItems [(1, 30)] 0 2 (by decide) (by decide) (by decide)

/-- Downward scan over an interval-shaped visibility predicate, entered at
index `i` with the state already holding the run `[i + 1, j]`: it extends
the run down to `a` and stops. -/
theorem scanDown_run (vis : Nat → Bool) (a b : Nat)
    (hvis : ∀ k, vis k = true ↔ (a ≤ k ∧ k ≤ b)) :
    ∀ (i j : Nat), a ≤ i + 1 → i + 1 ≤ j → j ≤ b →
      scanDown vis i (some (i + 1, j)) = some (a, j) := by
  intro i
  induction i with
  | zero =>
    intro j h1 h2 h3
    by_cases hv : vis 0 = true
    · have ha : a = 0 := by
        have := (hvis 0).mp hv
        omega
      simp [scanDown, hv, scanUpdate, ha]
    · have ha : a = 1 := by
        by_cases a0 : a = 0
        · exact absurd ((hvis 0).mpr ⟨by omega, by omega⟩) hv
        · omega
      simp [scanDown, hv, ha]
  | succ m ih =>
    intro j h1 h2 h3
    by_cases hv : vis (m + 1) = true
    · have hm := (hvis (m + 1)).mp hv
      have hupd : scanUpdate (some (m + 1 + 1, j)) (m + 1) = some (m + 1, j) := by
        simp only [scanUpdate, Option.some.injEq, Prod.mk.injEq]
        omega
      rw [scanDown, if_pos hv, hupd]
      exact ih j hm.1 (by omega) h3
    · have ha : a = m + 2 := by
        by_cases hle : a ≤ m + 1
        · exact absurd ((hvis (m + 1)).mpr ⟨hle, by omega⟩) hv
        · omega
      simp [scanDown, hv, ha]

/-- Downward scan entered below the visible interval with nothing found:
nothing is ever found. -/
theorem scanDown_none_below (vis : Nat → Bool) (a b : Nat)
    (hvis : ∀ k, vis k = true ↔ (a ≤ k ∧ k ≤ b)) :
    ∀ i, i < a → scanDown vis i none = none := by
  intro i
  induction i with
  | zero =>
    intro hi
    have hv : ¬ vis 0 = true := fun hv => by
      have := (hvis 0).mp hv
      omega
    simp [scanDown, hv]
  | succ m ih =>
    intro hi
    have hv : ¬ vis (m + 1) = true := fun hv => by
      have := (hvis (m + 1)).mp hv
      omega
    simp only [scanDown, if_neg hv]
    exact ih (by omega)

/-- Downward scan entered at or above `a` with nothing found yet: it finds
the run `[a, min i b]`. -/
theorem scanDown_found (vis : Nat → Bool) (a b : Nat)
    (hvis : ∀ k, vis k = true ↔ (a ≤ k ∧ k ≤ b)) (hab : a ≤ b) :
    ∀ i, a ≤ i → scanDown vis i none = some (a, min i b) := by
  intro i
  induction i with
  | zero =>
    intro hi
    have ha : a = 0 := by omega
    have hv : vis 0 = true := (hvis 0).mpr ⟨by omega, by omega⟩
    simp [scanDown, hv, scanUpdate, ha]
  | succ m ih =>
    intro hi
    by_cases hv : vis (m + 1) = true
    · have hm := (hvis (m + 1)).mp hv
      have hupd : scanUpdate (none : Option (Nat × Nat)) (m + 1) = some (m + 1, m + 1) := rfl
      rw [scanDown, if_pos hv, hupd]
      rw [scanDown_run vis a b hvis m (m + 1) (by omega) (by omega) (by omega)]
      rw [show min (m + 1) b = m + 1 from by omega]
    · have hb2 : b < m + 1 := by
        by_contra hcon
        exact hv ((hvis (m + 1)).mpr ⟨hi, by omega⟩)
      simp only [scanDown, if_neg hv]
      rw [ih (by omega)]
      rw [show min m b = b from by omega, show min (m + 1) b = b from by omega]

/-- Upward scan inside the visible run: entered at `i ≤ b + 1` with state
`(a, i - 1)`, it extends the run to `b` and stops (either by the break or
by running out of indices). -/
theorem scanUp_run (vis : Nat → Bool) (a b n : Nat)
    (hvis : ∀ k, vis k = true ↔ (a ≤ k ∧ k ≤ b)) (hbn : b < n) :
    ∀ (fuel i : Nat), i + fuel = n → a ≤ i → i ≤ b + 1 →
      scanUpAux vis fuel i (some (a, i - 1)) = some (a, b) := by
  intro fuel
  induction fuel with
  | zero =>
    intro i hn hai hib
    have : i - 1 = b := by omega
    rw [scanUpAux, this]
  | succ fuel ih =>
    intro i hn hai hib
    by_cases hv : vis i = true
    · have hib2 := ((hvis i).mp hv).2
      have hupd : scanUpdate (some (a, i - 1)) i = some (a, i) := by
        simp only [scanUpdate, Option.some.injEq, Prod.mk.injEq]
        omega
      rw [scanUpAux, if_pos hv, hupd]
      have := ih (i + 1) (by omega) (by omega) (by omega)
      rw [show i + 1 - 1 = i from by omega] at this
      exact this
    · have : i = b + 1 := by
        by_cases hle : i ≤ b
        · exact absurd ((hvis i).mpr ⟨hai, hle⟩) hv
        · omega
      rw [scanUpAux, if_neg hv]
      rw [show i - 1 = b from by omega]

/-- Upward scan entered at or below `a` with nothing found yet: it skips
the invisible prefix and collects the whole run `[a, b]`. -/
theorem scanUp_none (vis : Nat → Bool) (a b n : Nat)
    (hvis : ∀ k, vis k = true ↔ (a ≤ k ∧ k ≤ b)) (hab : a ≤ b) (hbn : b < n) :
    ∀ (fuel i : Nat), i + fuel = n → i ≤ a →
      scanUpAux vis fuel i none = some (a, b) := by
  intro fuel
  induction fuel with
  | zero =>
    intro i hn hia
    omega
  | succ fuel ih =>
    intro i hn hia
    by_cases hv : vis i = true
    · have hia2 : i = a := by
        have := (hvis i).mp hv
        omega
      have hupd : scanUpdate (none : Option (Nat × Nat)) i = some (i, i) := rfl
      rw [scanUpAux, if_pos hv, hupd]
      subst hia2
      have := scanUp_run vis i b n hvis hbn fuel (i + 1) (by omega) (by omega) (by omega)
      rw [show i + 1 - 1 = i from by omega] at this
      exact this
    · have hlt : i < a := by
        by_cases he : i = a
        · exact absurd ((hvis i).mpr ⟨by omega, by omega⟩) hv
        · omega
      rw [scanUpAux, if_neg hv]
      exact ih (i + 1) (by omega) (by omega)

/-- Upward scan entered strictly above the run with it already collected:
it breaks immediately (or has no fuel) and returns the run. -/
theorem scanUp_done (vis : Nat → Bool) (a b : Nat)
    (hvis : ∀ k, vis k = true ↔ (a ≤ k ∧ k ≤ b)) :
    ∀ (fuel i : Nat), b + 1 < i → scanUpAux vis fuel i (some (a, b)) = some (a, b) := by
  intro fuel i hi
  cases fuel with
  | zero => rw [scanUpAux]
  | succ fuel =>
    have hv : ¬ vis i = true := fun hv => by
      have := (hvis i).mp hv
      omega
    rw [scanUpAux, if_neg hv]

/-- The bidirectional scan of `getVisibleIndexes` returns exactly the
visible interval `[a, b]`, for every starting pivot. -/
theorem scanCore_eq (vis : Nat → Bool) (a b n : Nat)
    (hvis : ∀ k, vis k = true ↔ (a ≤ k ∧ k ≤ b)) (hab : a ≤ b) (hbn : b < n) (pivot : Nat) :
    scanUpAux vis (n - (pivot + 1)) (pivot + 1) (scanDown vis pivot none) = some (a, b) := by
  rcases Nat.lt_or_ge pivot a with hpa | hpa
  · rw [scanDown_none_below vis a b hvis pivot hpa]
    exact scanUp_none vis a b n hvis hab hbn (n - (pivot + 1)) (pivot + 1) (by omega) (by omega)
  · rw [scanDown_found vis a b hvis hab pivot hpa]
    rcases le_or_lt pivot b with hpb | hpb
    · rw [show min pivot b = pivot from by omega]
      have := scanUp_run vis a b n hvis hbn (n - (pivot + 1)) (pivot + 1) (by omega) (by omega)
        (by omega)
      rw [show pivot + 1 - 1 = pivot from by omega] at this
      exact this
    · rw [show min pivot b = b from by omega]
      exact scanUp_done vis a b hvis (n - (pivot + 1)) (pivot + 1) (by omega)

/-- Unfolding of the visibility test at an in-range index. -/
theorem visAt_true_iff (top bottom : Int) (items : List TData) (cache : HeightCache) (est : Int)
    (nailPoints : List Int) (i : Nat) (hlen : nailPoints.length = items.length)
    (hi : i < items.length) :
    (visAt top bottom items cache est nailPoints i = true)
      ↔ (top ≤ nailPoints.getD i 0 + getHeightAt items cache est i
          ∧ nailPoints.getD i 0 ≤ bottom) := by
  have hnp : nailPoints[i]? = some (nailPoints.getD i 0) :=
    getElem?_eq_some_getD _ i (by omega)
  cases hitem : items[i]? with
  | none =>
    exfalso
    have := List.getElem?_eq_none_iff.mp hitem
    omega
  | some it =>
    have hh : getHeightAt items cache est i = getItemHeight cache est it := by
      simp [getHeightAt, hitem]
    simp only [visAt, hnp, hitem, Bool.and_eq_true, decide_eq_true_eq, hh]

/-- An out-of-range index is never visible. -/
theorem visAt_out_of_range (top bottom : Int) (items : List TData) (cache : HeightCache)
    (est : Int) (nailPoints : List Int) (i : Nat) (hi : items.length ≤ i) :
    visAt top bottom items cache est nailPoints i = false := by
  have hitem : items[i]? = none := List.getElem?_eq_none_iff.mpr hi
  cases hnp : nailPoints[i]? <;> simp [visAt, hitem, hnp]

/-- Over a consistent, monotone position table the visible set is convex. -/
theorem visAt_convex (top bottom : Int) (items : List TData) (cache : HeightCache) (est : Int)
    (nailPoints : List Int)
    (hlen : nailPoints.length = items.length)
    (hstep : ∀ i, i < items.length - 1 →
      nailPoints[i + 1]? = some (nailPoints.getD i 0 + getHeightAt items cache est i))
    (hnn : ∀ i, i < items.length → 0 ≤ getHeightAt items cache est i) :
    ∀ i k j, i ≤ k → k ≤ j →
      visAt top bottom items cache est nailPoints i = true →
      visAt top bottom items cache est nailPoints j = true →
      visAt top bottom items cache est nailPoints k = true := by
  intro i k j hik hkj hvi hvj
  have hjn : j < items.length := by
    by_contra hcon
    rw [visAt_out_of_range top bottom items cache est nailPoints j (by omega)] at hvj
    simp at hvj
  have hkn : k < items.length := by omega
  have hin : i < items.length := by omega
  have hmono : ∀ q, q < nailPoints.length → ∀ p, p ≤ q →
      nailPoints.getD p 0 ≤ nailPoints.getD q 0 :=
    nailPoints_mono_of_steps nailPoints (getHeightAt items cache est)
      (fun m hm => hstep m (by rw [hlen] at hm; omega))
      (fun m hm => hnn m (by rw [hlen] at hm; omega))
  rw [visAt_true_iff top bottom items cache est nailPoints i hlen hin] at hvi
  rw [visAt_true_iff top bottom items cache est nailPoints j hlen hjn] at hvj
  rw [visAt_true_iff top bottom items cache est nailPoints k hlen hkn]
  constructor
  · rcases Nat.eq_or_lt_of_le hik with he | hlt
    · rw [← he]
      exact hvi.1
    · have hstep_i : nailPoints.getD (i + 1) 0
          = nailPoints.getD i 0 + getHeightAt items cache est i := by
        rw [List.getD_eq_getElem?_getD, hstep i (by omega)]
        rfl
      have c1 := hvi.1
      have c3 : nailPoints.getD (i + 1) 0 ≤ nailPoints.getD k 0 :=
        hmono k (by omega) (i + 1) (by omega)
      have c4 := hnn k hkn
      omega
  · have c1 : nailPoints.getD k 0 ≤ nailPoints.getD j 0 := hmono j (by omega) k hkj
    have c2 := hvj.2
    omega

/-- C3: whenever the window edges report `isInView` and some item is
visible (the pivot condition of the spec — the result holds for every
pivot), the scanner returns a range `[firstIndex, lastIndex]` such that
every index in it intersects the window edges under the closed-interval
rule, and the indices `firstIndex - 1` and `lastIndex + 1`, when in bounds,
do not intersect.  The position table is assumed consistent (prefix-sum
steps with non-negative heights), which is the invariant of C1. -/
theorem c3_no_gap_visible_range (items : List TData) (cache : HeightCache) (est : Int)
    (nailPoints : List Int) (edges : TWindowEdges) (pivot : Nat)
    (hlen : nailPoints.length = items.length)
    (hstep : ∀ i, i < items.length - 1 →
      nailPoints[i + 1]? = some (nailPoints.getD i 0 + getHeightAt items cache est i))
    (hnn : ∀ i, i < items.length → 0 ≤ getHeightAt items cache est i)
    (hIn : edges.isInView = true)
    (hex : ∃ i, i < items.length
      ∧ visAt edges.top edges.bottom items cache est nailPoints i = true) :
    (getVisibleIndexes items cache est nailPoints pivot edges).isInView = true ∧
    ∃ f l, (getVisibleIndexes items cache est nailPoints pivot edges).indexes = some (f, l) ∧
      (∀ i, f ≤ i → i ≤ l →
        visAt edges.top edges.bottom items cache est nailPoints i = true) ∧
      (0 < f → visAt edges.top edges.bottom items cache est nailPoints (f - 1) = false) ∧
      (l + 1 < items.length →
        visAt edges.top edges.bottom items cache est nailPoints (l + 1) = false) := by
  obtain ⟨w, hwn, hwv⟩ := hex
  have hPex : ∃ i, visAt edges.top edges.bottom items cache est nailPoints i = true := ⟨w, hwv⟩
  have hrange : ∀ m, visAt edges.top edges.bottom items cache est nailPoints m = true →
      m < items.length := by
    intro m hm
    by_contra hcon
    rw [visAt_out_of_range edges.top edges.bottom items cache est nailPoints m (by omega)] at hm
    simp at hm
  have hPa := Nat.find_spec hPex
  have hPb : visAt edges.top edges.bottom items cache est nailPoints
      (Nat.findGreatest
        (fun i => visAt edges.top edges.bottom items cache est nailPoints i = true)
        (items.length - 1)) = true :=
    @Nat.findGreatest_spec w
      (fun i => visAt edges.top edges.bottom items cache est nailPoints i = true) _
      (items.length - 1)
      (show w ≤ items.length - 1 from by have := hrange w hwv; omega) hwv
  have hb_max : ∀ m, visAt edges.top edges.bottom items cache est nailPoints m = true →
      m ≤ Nat.findGreatest
        (fun i => visAt edges.top edges.bottom items cache est nailPoints i = true)
        (items.length - 1) := by
    intro m hm
    exact Nat.le_findGreatest (by have := hrange m hm; omega) hm
  have hconv := visAt_convex edges.top edges.bottom items cache est nailPoints hlen hstep hnn
  have hvis : ∀ k, visAt edges.top edges.bottom items cache est nailPoints k = true
      ↔ (Nat.find hPex ≤ k ∧ k ≤ Nat.findGreatest
          (fun i => visAt edges.top edges.bottom items cache est nailPoints i = true)
          (items.length - 1)) := by
    intro k
    constructor
    · intro hk
      refine ⟨?_, hb_max k hk⟩
      by_contra hcon
      exact Nat.find_min hPex (by omega) hk
    · rintro ⟨h1, h2⟩
      exact hconv (Nat.find hPex) k _ h1 h2 hPa hPb
  have hab := hb_max (Nat.find hPex) hPa
  have hbn : Nat.findGreatest
      (fun i => visAt edges.top edges.bottom items cache est nailPoints i = true)
      (items.length - 1) < items.length := hrange _ hPb
  have hgv : getVisibleIndexes items cache est nailPoints pivot edges
      = { isInView := true
          indexes := scanUpAux (visAt edges.top edges.bottom items cache est nailPoints)
            (items.length - (pivot + 1)) (pivot + 1)
            (scanDown (visAt edges.top edges.bottom items cache est nailPoints) pivot none) } := by
    simp [getVisibleIndexes, hIn]
  rw [hgv]
  refine ⟨rfl, Nat.find hPex,
    Nat.findGreatest (fun i => visAt edges.top edges.bottom items cache est nailPoints i = true)
      (items.length - 1), ?_, ?_, ?_, ?_⟩
  · exact scanCore_eq (visAt edges.top edges.bottom items cache est nailPoints) (Nat.find hPex)
      (Nat.findGreatest
        (fun i => visAt edges.top edges.bottom items cache est nailPoints i = true)
        (items.length - 1)) items.length hvis hab hbn pivot
  · intro i h1 h2
    exact (hvis i).mpr ⟨h1, h2⟩
  · intro hf
    have hnot : ¬ visAt edges.top edges.bottom items cache est nailPoints
        (Nat.find hPex - 1) = true := Nat.find_min hPex (by omega)
    exact Bool.eq_false_iff.mpr hnot
  · intro hl
    have hnot : ¬ visAt edges.top edges.bottom items cache est nailPoints
        (Nat.findGreatest
          (fun i => visAt edges.top edges.bottom items cache est nailPoints i = true)
          (items.length - 1) + 1) = true := by
      intro hP
      have := hb_max _ hP
      omega
    exact Bool.eq_false_iff.mpr hnot

/-- C3 witness: window edges `[0, 120]` over the sample table. -/
theorem c3_no_gap_visible_range_witness :
    (getVisibleIndexes sampleItems [] 50 [0, 50, 100] 1
      ⟨0, 120, 0, 120, 150, true⟩).isInView = true ∧
    ∃ f l, (getVisibleIndexes sampleItems [] 50 [0, 50, 100] 1
        ⟨0, 120, 0, 120, 150, true⟩).indexes = some (f, l) ∧
      (∀ i, f ≤ i → i ≤ l →
        visAt (0 : Int) 120 sampleItems [] 50 [0, 50, 100] i = true) ∧
      (0 < f → visAt (0 : Int) 120 sampleItems [] 50 [0, 50, 100] (f - 1) = false) ∧
      (l + 1 < sampleItems.length →
        visAt (0 : Int) 120 sampleItems [] 50 [0, 50, 100] (l + 1) = false) :=
  c3_no_gap_visible_range sampleItems [] 50 [0, 50, 100] ⟨0, 120, 0, 120, 150, true⟩ 1
    (by decide) (by decide) (by decide) (by decide) ⟨0, by decide⟩

end SmartList
